import Mathlib

/-!
Verification of the request-admission and orchestration layer of the
clyrdia-api repository (contract-analysis service).

Strings are modelled as `List Char` (Python `str` is a sequence of code
points); timestamps as `Int` (Python floats enter only through comparison
and subtraction of window horizons, both exact here); fallible operations
return `Option`/`Except`.  External collaborators (Redis, the OpenAI
stream, the JSON library, SHA-256/MD5 digests, Supabase) are parameters of
the embedded functions; the control flow around them is translated from
the source.
-/

/-! ### Python string primitives

`removeOcc`/`replaceOcc` model Python `str.replace(pat, rep)`: scan left to
right, replace each non-overlapping occurrence, resume scanning after the
replaced region (text formed by joining the pieces around a removed
occurrence is not rescanned).  `containsSub` models Python `pat in s`.
`stripChars` models `str.strip()` and `pySplitWS` models `str.split()` with
no separator (split on whitespace runs, dropping empties). -/

def quoteChar : Char := Char.ofNat 34

def apostChar : Char := Char.ofNat 39

def containsSub (pat : List Char) : List Char → Bool
  | [] => pat.isEmpty
  | c :: rest => pat.isPrefixOf (c :: rest) || containsSub pat rest

/-- Worker for `replaceOcc`: structural recursion on a fuel that starts at
the input length — each step consumes one head character and one unit of
fuel, so the fuel never runs out on the initial call. -/
def replaceOccAux (pat rep : List Char) : Nat → List Char → List Char
  | 0, s => s
  | _, [] => []
  | fuel + 1, c :: rest =>
    if pat ≠ [] ∧ pat.isPrefixOf (c :: rest) then
      rep ++ replaceOccAux pat rep fuel (rest.drop (pat.length - 1))
    else
      c :: replaceOccAux pat rep fuel rest

def replaceOcc (pat rep : List Char) (s : List Char) : List Char :=
  replaceOccAux pat rep s.length s

def removeOcc (pat : List Char) (s : List Char) : List Char :=
  replaceOcc pat [] s

def stripChars (s : List Char) : List Char :=
  ((s.dropWhile Char.isWhitespace).reverse.dropWhile Char.isWhitespace).reverse

def pySplitWS (s : List Char) : List (List Char) :=
  (s.splitOnP Char.isWhitespace).filter (· ≠ [])

def joinSep (sep : List Char) : List (List Char) → List Char
  | [] => []
  | [x] => x
  | x :: y :: rest => x ++ sep ++ joinSep sep (y :: rest)

/-! ### `app/core/security.py` : `sanitize_input` -/

def dangerous_chars : List (List Char) :=
  [['<'], ['>'], ['&'], [quoteChar], [apostChar],
   "javascript:".data, "data:".data]

def sanitize_input (text : List Char) : List Char :=
  if text = [] then []
  else
    let sanitized := dangerous_chars.foldl (fun acc pat => removeOcc pat acc) text
    let truncated := if sanitized.length > 10000 then sanitized.take 10000 else sanitized
    stripChars truncated

/-! ### `app/core/security.py` : `RateLimiter`

Per-client timestamp maps are association lists (Python dicts with string
keys); the dict invariant (no duplicate keys) is a hypothesis where a
lookup characterisation needs it. -/

abbrev TsMap := List (List Char × List Int)

def lookupClient : TsMap → List Char → Option (List Int)
  | [], _ => none
  | e :: rest, c => if e.1 = c then some e.2 else lookupClient rest c

structure RateLimiterState where
  requests_per_minute : Nat
  requests_per_hour : Nat
  minute_requests : TsMap
  hour_requests : TsMap

def pruneMap (horizon : Int) (m : TsMap) : TsMap :=
  (m.map (fun e => (e.1, e.2.filter (fun t => t > horizon)))).filter
    (fun e => e.2 ≠ [])

def cleanup_old_entries (s : RateLimiterState) (now : Int) : RateLimiterState :=
  { s with
    minute_requests := pruneMap (now - 60) s.minute_requests
    hour_requests := pruneMap (now - 3600) s.hour_requests }

def ensureClient (m : TsMap) (c : List Char) : TsMap :=
  match lookupClient m c with
  | some _ => m
  | none => m ++ [(c, [])]

def appendTs (m : TsMap) (c : List Char) (t : Int) : TsMap :=
  m.map (fun e => if e.1 = c then (e.1, e.2 ++ [t]) else e)

def is_allowed (s : RateLimiterState) (client : List Char) (now : Int) :
    Bool × RateLimiterState :=
  let s1 := cleanup_old_entries s now
  let s2 := { s1 with minute_requests := ensureClient s1.minute_requests client }
  if ((lookupClient s2.minute_requests client).getD []).length ≥ s.requests_per_minute then
    (false, s2)
  else
    let s3 := { s2 with hour_requests := ensureClient s2.hour_requests client }
    if ((lookupClient s3.hour_requests client).getD []).length ≥ s.requests_per_hour then
      (false, s3)
    else
      (true,
       { s3 with
         minute_requests := appendTs s3.minute_requests client now
         hour_requests := appendTs s3.hour_requests client now })

/-! ### `app/services/document_service.py` : content validation and text
sanitisation -/

def document_indicators : List (List Char) :=
  ["contract", "agreement", "terms", "conditions", "clause",
   "party", "parties", "effective date", "termination",
   "liability", "indemnification", "governing law"].map String.data

def indicatorCount (text : List Char) : Nat :=
  let text_lower := text.map Char.toLower
  (document_indicators.filter (fun ind => containsSub ind text_lower)).length

def validate_document_content (text : List Char) : Bool :=
  if text = [] ∨ stripChars text = [] then false
  else if (stripChars text).length < 50 then false
  else indicatorCount text ≥ 2

def nl3 : List Char := ['\n', '\n', '\n']

def nl2 : List Char := ['\n', '\n']

/-- The `while '\n\n\n' in cleaned` loop of `sanitize_text`; each productive
iteration removes one newline, so `s.length` iterations always suffice as
fuel. -/
def collapseNewlinesAux : Nat → List Char → List Char
  | 0, s => s
  | fuel + 1, s =>
    if containsSub nl3 s then collapseNewlinesAux fuel (replaceOcc nl3 nl2 s) else s

def sanitize_text (text : List Char) : List Char :=
  if text = [] then []
  else
    let lines := text.splitOnP (· = '\n') |>.map (fun line => joinSep [' '] (pySplitWS line))
    let cleaned_lines := lines.filter (· ≠ [])
    let cleaned_text := joinSep ['\n'] cleaned_lines
    stripChars (collapseNewlinesAux cleaned_text.length cleaned_text)

/-! ### `app/api/v1/endpoints.py` : `analyze_contract`, pre-model gating

The endpoint branches on which of `contract_text` / `file_upload` was
supplied.  An empty `contract_text` is falsy in Python, so with no file it
hits the "either ... must be provided" check.  For a file upload,
`process_document` has already extracted the text (the extraction
libraries are external); the gate receives that extracted text. -/

inductive AnalyzeInput
  | rawText (t : List Char)
  | fileDoc (extractedText : List Char)

inductive ValidationError
  | missingInput
  | invalidDocumentContent
  | invalidContractText
deriving DecidableEq

def preModelGate : Option AnalyzeInput → Except ValidationError (List Char)
  | none => .error .missingInput
  | some (.rawText t) =>
    if t = [] then .error .missingInput
    else
      let s := sanitize_input t
      if s = [] then .error .invalidContractText else .ok s
  | some (.fileDoc t) =>
    if validate_document_content t then .ok (sanitize_text t)
    else .error .invalidDocumentContent

/-! ### `app/services/openai_service.py` : response parsing

The JSON library is external: `parse` stands for `json.loads` restricted
to the analysis-payload shape, returning `none` on `JSONDecodeError`.
`AnalysisPayload` carries the optional fields read with `dict.get`;
issue objects pass through the service untouched, so they stay opaque. -/

abbrev RawIssue := List Char

structure AnalysisPayload where
  overall_risk : Option (List Char)
  overall_risk_score : Option Int
  issues : Option (List RawIssue)
  recommendations : Option (List (List Char))
  summary : Option (List Char)

structure AnalysisData where
  overall_risk : List Char
  overall_risk_score : Int
  issues : List RawIssue
  recommendations : List (List Char)
  summary : List Char
  raw_response : List Char
deriving DecidableEq

def pyFind (c : Char) (s : List Char) : Int :=
  match s.findIdx? (· = c) with
  | some i => (i : Int)
  | none => -1

def pyRFind (c : Char) (s : List Char) : Int :=
  match s.reverse.findIdx? (· = c) with
  | some i => (s.length : Int) - 1 - (i : Int)
  | none => -1

/-- The fallback dictionary built in the `except json.JSONDecodeError`
branch. -/
def degradedResult (response : List Char) : AnalysisData :=
  { overall_risk := "medium".data
    overall_risk_score := 50
    issues := []
    recommendations := ["Review the contract manually for detailed analysis".data]
    summary := "AI analysis completed but response parsing failed".data
    raw_response := response }

/-- `_process_analysis_response`.  The `raise ValueError("No JSON found in
response")` when no brace is found is NOT caught by the
`except json.JSONDecodeError` clause (`ValueError` is the superclass), so
it propagates to the caller: modelled as `.error`. -/
def process_analysis_response (parse : List Char → Option AnalysisPayload)
    (response : List Char) : Except (List Char) AnalysisData :=
  let json_start := pyFind '\x7b' response
  let json_end := pyRFind '\x7d' response + 1
  if json_start = -1 ∨ json_end = 0 then
    .error "No JSON found in response".data
  else
    let json_str := (response.drop json_start.toNat).take (json_end - json_start).toNat
    match parse json_str with
    | some d =>
      .ok { overall_risk := d.overall_risk.getD "medium".data
            overall_risk_score := d.overall_risk_score.getD 50
            issues := d.issues.getD []
            recommendations := d.recommendations.getD []
            summary := d.summary.getD "Analysis completed".data
            raw_response := response }
    | none => .ok (degradedResult response)

/-! ### `app/services/openai_service.py` : streaming analysis

The provider stream is external; its observable behaviour per call is the
list of non-empty content fragments it delivered (`delta.content` of each
chunk, falsy ones skipped by the source) together with an optional
exception message if it raised after those fragments.  Event timestamps
(`asyncio.get_event_loop().time()`) are abstracted to `0`: no claim
depends on them.  The SSE framing of `generate_stream`
(`"data: " + json.dumps(chunk)`) is likewise abstracted: events are
modelled as the chunk dictionaries themselves. -/

inductive ChunkData
  | progress (content full_response : List Char)
  | complete (result : AnalysisData)
  | failure (message : List Char)
deriving DecidableEq

structure Chunk where
  type : List Char
  payload : ChunkData
  timestamp : Int
  is_final : Bool
deriving DecidableEq

def progressChunk (content full : List Char) : Chunk :=
  { type := "progress".data, payload := .progress content full,
    timestamp := 0, is_final := false }

def completeChunk (r : AnalysisData) : Chunk :=
  { type := "analysis_complete".data, payload := .complete r,
    timestamp := 0, is_final := true }

def errorChunk (msg : List Char) : Chunk :=
  { type := "error".data, payload := .failure msg,
    timestamp := 0, is_final := true }

/-- Progress events: one per fragment, `full_response` accumulating. -/
def progressChunks (acc : List Char) : List (List Char) → List Chunk
  | [] => []
  | f :: rest => progressChunk f (acc ++ f) :: progressChunks (acc ++ f) rest

/-- `_stream_analysis`: yield a progress event per fragment; if the
provider raised, its own `except Exception` yields a final error event;
otherwise process the accumulated response — a `ValueError` escaping
`_process_analysis_response` is caught by the same `except Exception` and
also becomes a final error event. -/
def stream_analysis (parse : List Char → Option AnalysisPayload)
    (frags : List (List Char)) (exc : Option (List Char)) : List Chunk :=
  match exc with
  | some msg => progressChunks [] frags ++ [errorChunk ("Streaming failed: ".data ++ msg)]
  | none =>
    match process_analysis_response parse (frags.foldl (· ++ ·) []) with
    | .ok result => progressChunks [] frags ++ [completeChunk result]
    | .error e => progressChunks [] frags ++ [errorChunk ("Streaming failed: ".data ++ e)]

/-- `OpenAIService.analyze_contract`: builds the prompt and re-yields
`_stream_analysis`; its own `except Exception` is unreachable because the
inner generator already converts every exception into a final error
event, so the wrapper's event sequence is the inner one. -/
def service_analyze_contract (parse : List Char → Option AnalysisPayload)
    (frags : List (List Char)) (exc : Option (List Char)) : List Chunk :=
  stream_analysis parse frags exc

/-- `generate_stream` in the `/analyze/stream` endpoint: re-emit each
chunk, stop right after the first chunk with `is_final`; if the upstream
generator raises (modelled: after yielding `chunks` it raises `msg`),
yield a synthesized final error event.  `endpointTime` is the
`time.time()` read in the handler. -/
def generate_stream (endpointTime : Int) :
    List Chunk → Option (List Char) → List Chunk
  | [], none => []
  | [], some msg =>
    [{ type := "error".data, payload := .failure msg,
       timestamp := endpointTime, is_final := true }]
  | c :: rest, raised =>
    if c.is_final then [c] else c :: generate_stream endpointTime rest raised

/-! ### `app/tasks/analysis_tasks.py` : `batch_analyze_contracts`

Each item's model stream is an external stub (`chunksOf i`); the Supabase
calls `store_analysis`/`store_issues` are external and may raise
(`store i = .error msg`).  The loop body's `try` block scans the item's
chunks for the first `analysis_complete` event only (error chunks are
skipped by this loop), then persists; any exception is recorded as a
failed per-item entry and the loop continues. -/

structure ContractData where
  id : Option (List Char)
  text : List Char
  industry : Option (List Char)
  analysis_types : List (List Char)

structure BatchItemResult where
  contract_id : Option (List Char)
  analysis_id : Option (List Char)
  status : List Char
  result : Option AnalysisData
  error : Option (List Char)

structure BatchReport where
  total : Nat
  completed : Nat
  failed : Nat
  results : List BatchItemResult

def firstComplete (chunks : List Chunk) : Option AnalysisData :=
  chunks.findSome? (fun c =>
    match c.payload with
    | .complete r => some r
    | _ => none)

/-- One iteration of the batch loop: the produced per-item entry and
whether `completed` (true) or `failed` (false) was incremented. -/
def processItem (chunksOf : Nat → List Chunk)
    (store : Nat → Except (List Char) (List Char))
    (i : Nat) (cd : ContractData) : BatchItemResult × Bool :=
  match firstComplete (chunksOf i) with
  | some result =>
    match store i with
    | .ok aid =>
      ({ contract_id := cd.id, analysis_id := some aid,
         status := "completed".data, result := some result, error := none }, true)
    | .error e =>
      ({ contract_id := cd.id, analysis_id := none,
         status := "failed".data, result := none, error := some e }, false)
  | none =>
    ({ contract_id := cd.id, analysis_id := none,
       status := "failed".data, result := none,
       error := some "Analysis failed to complete".data }, false)

/-- The `for i, contract_data in enumerate(contracts_data)` loop, with the
running `completed`/`failed` counters and the `results` list rendered as a
structural recursion (counter increments commute with the recursion). -/
def batchRun (chunksOf : Nat → List Chunk)
    (store : Nat → Except (List Char) (List Char)) :
    Nat → List ContractData → Nat × Nat × List BatchItemResult
  | _, [] => (0, 0, [])
  | i, cd :: rest =>
    let (entry, ok) := processItem chunksOf store i cd
    let (c, f, rs) := batchRun chunksOf store (i + 1) rest
    (if ok then c + 1 else c, if ok then f else f + 1, entry :: rs)

def batch_analyze_contracts (chunksOf : Nat → List Chunk)
    (store : Nat → Except (List Char) (List Char))
    (contracts_data : List ContractData) : BatchReport :=
  let (completed, failed, results) := batchRun chunksOf store 0 contracts_data
  { total := contracts_data.length, completed := completed,
    failed := failed, results := results }

/-! ### `app/core/cache.py` : `CacheManager` over a Redis model

Redis is external; its state is modelled as a list of entries
`(key, value, expiry)` where `expiry = none` means a persisted key with no
TTL (Redis `TTL` answers `-1` for those) and `expiry = some e` means the
key lives while `now < e`.  `setex` replaces any entry under the same key.
Serialisation is external too: `encode`/`decode` stand for
`json.dumps`/`json.loads` on cached values of type `V`; `decode` returns
`none` where `json.loads` would raise.  `hash` stands for the MD5 hex
digest of `_generate_key`. -/

structure RedisEntry where
  key : List Char
  value : List Char
  expiry : Option Int

abbrev RedisStore := List RedisEntry

def entryLive (now : Int) (e : RedisEntry) : Bool :=
  match e.expiry with
  | none => true
  | some t => now < t

def redisGet (store : RedisStore) (now : Int) (k : List Char) : Option (List Char) :=
  (store.find? (fun e => e.key = k ∧ entryLive now e)).map (fun e => e.value)

def redisTTLOf (store : RedisStore) (now : Int) (k : List Char) : Int :=
  match store.find? (fun e => e.key = k ∧ entryLive now e) with
  | none => -2
  | some e =>
    match e.expiry with
    | none => -1
    | some t => t - now

def redisDel (store : RedisStore) (k : List Char) : RedisStore :=
  store.filter (fun e => e.key ≠ k)

def redisSetex (store : RedisStore) (now : Int) (k v : List Char) (ttl : Int) :
    RedisStore :=
  redisDel store k ++ [{ key := k, value := v, expiry := some (now + ttl) }]

def clyrdiaPrefix : List Char := "clyrdia:".data

/-- Keys answered by `KEYS "clyrdia:*"` at time `now` (expired keys are
gone as far as any Redis read is concerned). -/
def redisKeysClyrdia (store : RedisStore) (now : Int) : List (List Char) :=
  (store.filter (fun e => clyrdiaPrefix.isPrefixOf e.key ∧ entryLive now e)).map
    (fun e => e.key)

structure CacheState where
  connected : Bool
  store : RedisStore
  default_ttl : Int
  max_size : Nat

def generate_key (hash : List Char → List Char) (key : List Char) : List Char :=
  clyrdiaPrefix ++ hash key

def cache_get {V : Type} (hash : List Char → List Char)
    (decode : List Char → Option V)
    (s : CacheState) (now : Int) (key : List Char) : Option V :=
  if !s.connected then none
  else
    match redisGet s.store now (generate_key hash key) with
    | some v => if v ≠ [] then decode v else none
    | none => none

def check_size_limit (s : CacheState) (now : Int) : Bool :=
  s.connected && (redisKeysClyrdia s.store now).length ≥ s.max_size

/-- The `key_ttls` list built by `_evict_oldest`: live `clyrdia:*` keys
paired with their remaining TTL, keeping only those whose TTL is positive
(persisted keys answer `-1` and are excluded). -/
def keyTTLs (store : RedisStore) (now : Int) : List (List Char × Int) :=
  (redisKeysClyrdia store now).filterMap (fun k =>
    let t := redisTTLOf store now k
    if t > 0 then some (k, t) else none)

/-- `_evict_oldest`: enumerate live `clyrdia:*` keys, build `key_ttls`,
stable-sort ascending by TTL (`list.sort` is stable, as is
`List.mergeSort`), delete the first `max(1, len // 10)`. -/
def evict_oldest (store : RedisStore) (now : Int) : RedisStore :=
  let keys := redisKeysClyrdia store now
  if keys = [] then store
  else
    let key_ttls := keyTTLs store now
    let sorted := key_ttls.mergeSort (fun a b => a.2 ≤ b.2)
    let to_remove := max 1 (key_ttls.length / 10)
    (sorted.take to_remove).foldl (fun st e => redisDel st e.1) store

/-- `CacheManager.set`: `ttl or self.default_ttl` maps `none`/`0` to the
default; an eviction pass runs before the write when the live `clyrdia:*`
count is at or over `max_size`; `SETEX` with a non-positive TTL raises in
Redis, caught by the blanket `except` after the eviction already
happened. -/
def cache_set {V : Type} (hash : List Char → List Char) (encode : V → List Char)
    (s : CacheState) (now : Int) (key : List Char) (v : V) (ttl : Option Int) :
    Bool × CacheState :=
  if !s.connected then (false, s)
  else
    let cache_key := generate_key hash key
    let ttl' := match ttl with
      | some t => if t = 0 then s.default_ttl else t
      | none => s.default_ttl
    let s1 := if check_size_limit s now then
        { s with store := evict_oldest s.store now }
      else s
    if ttl' ≤ 0 then (false, s1)
    else (true, { s1 with store := redisSetex s1.store now cache_key (encode v) ttl' })

/-! ### `app/api/v1/endpoints.py` : `/analyze` flow for admission and
fingerprinting

`sha256` stands for the hex digest of `hashlib.sha256`; the cache key is
the f-string of line 100.  The pipeline outcome (already-admitted path) is
driven by the model-stream scan of lines 108-127 over the service's
chunks, after the cache probe. -/

def contract_hash_raw (sha256 : List Char → List Char) (t : List Char) : List Char :=
  sha256 (sanitize_input t)

def analysisCacheKey (contract_hash industry : List Char)
    (analysis_type : List (List Char)) : List Char :=
  "analysis:".data ++ contract_hash ++ [':'] ++ industry ++ [':'] ++
    joinSep [':'] analysis_type

/-- The `async for chunk in openai_service.analyze_contract(...)` scan:
first `analysis_complete` chunk wins, an `error` chunk raises HTTP 500,
stream end with neither raises HTTP 500 "Analysis failed to complete". -/
def scanChunks : List Chunk → Except (List Char) AnalysisData
  | [] => .error "Analysis failed to complete".data
  | c :: rest =>
    match c.payload with
    | .complete r => .ok r
    | .failure m => .error ("Analysis failed: ".data ++ m)
    | .progress _ _ => scanChunks rest

inductive AnalyzeResponse
  | rateLimited
  | badRequest (e : ValidationError)
  | cachedResult (v : AnalysisData)
  | serverError (msg : List Char)
  | success (r : AnalysisData)

/-- The `/analyze` handler's effect on the rate-limiter state together
with its outcome class.  After admission the handler only reads the
limiter; validation (400), cache hit, pipeline error (500) and success all
leave the post-admission limiter state untouched.  The cache probe is
abstracted by `cachedValue` (the `cache.get(cache_key)` answer) and the
model stream by `chunks`. -/
def analyze_endpoint (rl : RateLimiterState) (client : List Char) (now : Int)
    (input : Option AnalyzeInput) (cachedValue : Option AnalysisData)
    (chunks : List Chunk) : AnalyzeResponse × RateLimiterState :=
  let (allowed, rl') := is_allowed rl client now
  if !allowed then (.rateLimited, rl')
  else
    match preModelGate input with
    | .error e => (.badRequest e, rl')
    | .ok _ =>
      match cachedValue with
      | some v => (.cachedResult v, rl')
      | none =>
        match scanChunks chunks with
        | .error m => (.serverError m, rl')
        | .ok r => (.success r, rl')

/-! ### Lemmas about the Python string primitives -/

lemma replaceOccAux_nil_sublist (pat : List Char) (fuel : Nat) (s : List Char) :
    List.Sublist (replaceOccAux pat [] fuel s) s := by
  induction fuel generalizing s with
  | zero => cases s <;> simp [replaceOccAux]
  | succ n ih =>
    cases s with
    | nil => simp [replaceOccAux]
    | cons c rest =>
      rw [replaceOccAux]
      split
      · simpa using (((ih _).trans (List.drop_sublist _ _)).trans
          (List.sublist_cons_self c rest))
      · exact (ih rest).cons₂ c

lemma removeOcc_sublist (pat s : List Char) : List.Sublist (removeOcc pat s) s :=
  replaceOccAux_nil_sublist pat s.length s

lemma not_mem_removeOcc_of_not_mem {pat s : List Char} {c : Char}
    (h : c ∉ s) : c ∉ removeOcc pat s :=
  fun hc => h ((removeOcc_sublist pat s).subset hc)

lemma not_mem_replaceOccAux_single (c : Char) (fuel : Nat) (s : List Char)
    (h : s.length ≤ fuel) : c ∉ replaceOccAux [c] [] fuel s := by
  induction fuel generalizing s with
  | zero =>
    have : s = [] := List.eq_nil_of_length_eq_zero (Nat.le_zero.mp h)
    simp [this, replaceOccAux]
  | succ n ih =>
    cases s with
    | nil => simp [replaceOccAux]
    | cons d rest =>
      have hlen : rest.length ≤ n := by simp at h; omega
      rw [replaceOccAux]
      split
      · simpa using ih rest hlen
      · next hpre =>
        have hne : c ≠ d := by
          intro hcd
          exact hpre ⟨by simp, by simp [hcd, List.isPrefixOf]⟩
        simp only [List.mem_cons, not_or]
        exact ⟨hne, ih rest hlen⟩

lemma not_mem_removeOcc_single (c : Char) (s : List Char) :
    c ∉ removeOcc [c] s :=
  not_mem_replaceOccAux_single c s.length s (Nat.le_refl _)

lemma length_stripChars_le (s : List Char) : (stripChars s).length ≤ s.length := by
  unfold stripChars
  calc ((s.dropWhile Char.isWhitespace).reverse.dropWhile Char.isWhitespace).reverse.length
      = ((s.dropWhile Char.isWhitespace).reverse.dropWhile Char.isWhitespace).length := by
        simp
    _ ≤ (s.dropWhile Char.isWhitespace).reverse.length :=
        (List.dropWhile_sublist _).length_le
    _ = (s.dropWhile Char.isWhitespace).length := by simp
    _ ≤ s.length := (List.dropWhile_sublist _).length_le

lemma mem_of_mem_stripChars {s : List Char} {c : Char} (h : c ∈ stripChars s) :
    c ∈ s := by
  unfold stripChars at h
  rw [List.mem_reverse] at h
  have h1 := (List.dropWhile_sublist (l := (s.dropWhile Char.isWhitespace).reverse)
    Char.isWhitespace).subset h
  rw [List.mem_reverse] at h1
  exact (List.dropWhile_sublist (l := s) Char.isWhitespace).subset h1

lemma mem_sanitize_imp_mem_fold {t : List Char} {c : Char}
    (ht : t ≠ []) (h : c ∈ sanitize_input t) :
    c ∈ dangerous_chars.foldl (fun acc pat => removeOcc pat acc) t := by
  simp only [sanitize_input, if_neg ht] at h
  have h1 := mem_of_mem_stripChars h
  split at h1
  · exact (List.take_sublist _ _).subset h1
  · exact h1

/-- C8, counterexample: Python `str.replace` does not rescan the text
formed around a removed occurrence, so deleting `data:` from
`dadata:ta:` leaves exactly the denylist substring `data:` in the
sanitized output. -/
theorem sanitize_reformed_substring_cex :
    sanitize_input "dadata:ta:".data = "data:".data ∧
    containsSub "data:".data (sanitize_input "dadata:ta:".data) = true :=
  ⟨rfl, rfl⟩

/-- C8 (amended): for every raw-text input, the sanitized output contains
none of the single-character denylist members `<`, `>`, `&`, `"`, `'` and
has length at most 10000; the multi-character patterns `javascript:` and
`data:` are each removed in one pass but may be re-formed by later
deletions and so may survive in the output. -/
theorem sanitize_bounded_and_charfree (text : List Char) :
    (sanitize_input text).length ≤ 10000 ∧
    ∀ c ∈ sanitize_input text, c ∉ ['<', '>', '&', quoteChar, apostChar] := by
  by_cases ht : text = []
  · subst ht; simp [sanitize_input]
  constructor
  · simp only [sanitize_input, if_neg ht]
    refine le_trans (length_stripChars_le _) ?_
    split
    · simp [List.length_take]
    · omega
  · intro c hc hmem
    have hfold := mem_sanitize_imp_mem_fold ht hc
    simp only [dangerous_chars, List.foldl_cons, List.foldl_nil] at hfold
    simp only [List.mem_cons, List.not_mem_nil, or_false] at hmem
    rcases hmem with rfl | rfl | rfl | rfl | rfl
    · exact not_mem_removeOcc_of_not_mem (not_mem_removeOcc_of_not_mem
        (not_mem_removeOcc_of_not_mem (not_mem_removeOcc_of_not_mem
        (not_mem_removeOcc_of_not_mem (not_mem_removeOcc_of_not_mem
        (not_mem_removeOcc_single _ text)))))) hfold
    · exact not_mem_removeOcc_of_not_mem (not_mem_removeOcc_of_not_mem
        (not_mem_removeOcc_of_not_mem (not_mem_removeOcc_of_not_mem
        (not_mem_removeOcc_of_not_mem
        (not_mem_removeOcc_single _ (removeOcc ['<'] text)))))) hfold
    · exact not_mem_removeOcc_of_not_mem (not_mem_removeOcc_of_not_mem
        (not_mem_removeOcc_of_not_mem (not_mem_removeOcc_of_not_mem
        (not_mem_removeOcc_single _ (removeOcc ['>'] (removeOcc ['<'] text)))))) hfold
    · exact not_mem_removeOcc_of_not_mem (not_mem_removeOcc_of_not_mem
        (not_mem_removeOcc_of_not_mem
        (not_mem_removeOcc_single _ (removeOcc ['&'] (removeOcc ['>']
          (removeOcc ['<'] text)))))) hfold
    · exact not_mem_removeOcc_of_not_mem (not_mem_removeOcc_of_not_mem
        (not_mem_removeOcc_single _ (removeOcc [quoteChar] (removeOcc ['&']
          (removeOcc ['>'] (removeOcc ['<'] text)))))) hfold

/-- Witness for `sanitize_bounded_and_charfree` at the concrete input
`a<b`. -/
theorem sanitize_bounded_and_charfree_witness :
    (sanitize_input "a<b".data).length ≤ 10000 ∧
    '<' ∉ sanitize_input "a<b".data :=
  ⟨(sanitize_bounded_and_charfree "a<b".data).1,
   fun h => (sanitize_bounded_and_charfree "a<b".data).2 '<' h (by decide)⟩

/-- C2, counterexample: a raw-text submission is never content-validated —
the endpoint only calls `validate_document_content` on the file-upload
branch — so the under-50-character raw text `tiny` passes the gate and
reaches the model invocation instead of being rejected with a 400. -/
theorem content_validation_scope_cex :
    "tiny".data.length < 50 ∧
    preModelGate (some (.rawText "tiny".data)) = .ok "tiny".data :=
  ⟨by decide, rfl⟩

/-- C2 (amended): content validation guards only uploaded documents:
extracted text whose stripped length is under 50, or with fewer than 2
contract-indicator terms, is rejected with the invalid-document-content
error (HTTP 400) before any model invocation.  Raw text is rejected (400)
only when it is empty or sanitizes to empty; in particular a non-empty
raw-text blob under 50 characters is not rejected. -/
theorem content_validation_file_path (t : List Char)
    (h : (stripChars t).length < 50 ∨ indicatorCount t < 2) :
    preModelGate (some (.fileDoc t)) = .error .invalidDocumentContent := by
  have hv : validate_document_content t = false := by
    unfold validate_document_content
    by_cases h0 : t = [] ∨ stripChars t = []
    · simp [h0]
    · rw [if_neg h0]
      by_cases h1 : (stripChars t).length < 50
      · simp [h1]
      · rw [if_neg h1]
        rcases h with h | h
        · exact absurd h h1
        · simp only [ge_iff_le, decide_eq_false_iff_not, not_le]
          omega
  simp [preModelGate, hv]

/-- Witness for `content_validation_file_path` at the concrete uploaded
document text `short`. -/
theorem content_validation_file_path_witness :
    (stripChars "short".data).length < 50 ∧
    preModelGate (some (.fileDoc "short".data)) = .error .invalidDocumentContent :=
  ⟨by decide, content_validation_file_path _ (.inl (by decide))⟩

/-- C3, counterexample: on a response with no brace at all,
`_process_analysis_response` raises `ValueError("No JSON found in
response")`, which the `except json.JSONDecodeError` clause does not
catch (it propagates to the caller), so the stage fails instead of
producing the degraded result. -/
theorem response_parse_no_brace_cex :
    process_analysis_response (fun _ => none) "no json here".data =
      .error "No JSON found in response".data ∧
    process_analysis_response (fun _ => none) "no json here".data ≠
      .ok (degradedResult "no json here".data) := by
  refine ⟨rfl, fun h => ?_⟩
  have h2 : (Except.error "No JSON found in response".data :
      Except (List Char) AnalysisData) = .ok (degradedResult "no json here".data) := h
  exact Except.noConfusion h2

lemma pyRFind_nonneg {c : Char} {s : List Char} (h : pyRFind c s ≠ -1) :
    0 ≤ pyRFind c s := by
  unfold pyRFind at *
  cases hf : s.reverse.findIdx? (· = c) with
  | none => rw [hf] at h; simp at h
  | some i =>
    obtain ⟨hi, -⟩ := List.findIdx?_eq_some_iff_getElem.mp hf
    rw [List.length_reverse] at hi
    simp only []
    omega

/-- C3 (amended): when the accumulated response contains both a `{` and a
`}`, any JSON-decode failure on the brace-delimited slice yields the
degraded result (risk medium, score 50, no issues, generic
recommendation, parse-failure summary) and the stage does not fail; but
when the response contains no `{` or no `}`, the stage raises
`ValueError` — surfaced by the enclosing stream handler as a final error
event and by the synchronous endpoint as HTTP 500 — rather than the
degraded result. -/
theorem response_parse_degraded (parse : List Char → Option AnalysisPayload)
    (response : List Char) :
    ((pyFind '\x7b' response = -1 ∨ pyRFind '\x7d' response = -1) →
      process_analysis_response parse response =
        .error "No JSON found in response".data) ∧
    (pyFind '\x7b' response ≠ -1 → pyRFind '\x7d' response ≠ -1 →
      parse ((response.drop (pyFind '\x7b' response).toNat).take
        (pyRFind '\x7d' response + 1 - pyFind '\x7b' response).toNat) = none →
      process_analysis_response parse response = .ok (degradedResult response)) := by
  constructor
  · intro h
    unfold process_analysis_response
    rw [if_pos]
    rcases h with h | h
    · exact .inl h
    · exact .inr (by omega)
  · intro hs he hparse
    unfold process_analysis_response
    rw [if_neg]
    · simp only [hparse]
    · rintro (h | h)
      · exact hs h
      · have := pyRFind_nonneg he
        omega

/-- Witness for `response_parse_degraded` on the concrete response
`x\x7by\x7dz` with a failing JSON decoder. -/
theorem response_parse_degraded_witness :
    pyFind '\x7b' "x\x7by\x7dz".data ≠ -1 ∧
    process_analysis_response (fun _ => none) "x\x7by\x7dz".data =
      .ok (degradedResult "x\x7by\x7dz".data) :=
  ⟨by decide, (response_parse_degraded (fun _ => none) "x\x7by\x7dz".data).2
    (by decide) (by decide) rfl⟩

/-- C10: the raw-text fingerprint is the SHA-256 digest of the sanitized
text, so inputs with equal sanitized forms share the fingerprint, the
derived cache key, and therefore the cache-probe answer — each can be
served the other's cached analysis. -/
theorem fingerprint_sanitized_collision {V : Type}
    (sha256 hash : List Char → List Char) (decode : List Char → Option V)
    (s : CacheState) (now : Int) (t1 t2 industry : List Char)
    (analysis_type : List (List Char))
    (h : sanitize_input t1 = sanitize_input t2) :
    contract_hash_raw sha256 t1 = contract_hash_raw sha256 t2 ∧
    analysisCacheKey (contract_hash_raw sha256 t1) industry analysis_type =
      analysisCacheKey (contract_hash_raw sha256 t2) industry analysis_type ∧
    cache_get hash decode s now
        (analysisCacheKey (contract_hash_raw sha256 t1) industry analysis_type) =
      cache_get hash decode s now
        (analysisCacheKey (contract_hash_raw sha256 t2) industry analysis_type) := by
  have h1 : contract_hash_raw sha256 t1 = contract_hash_raw sha256 t2 := by
    unfold contract_hash_raw
    rw [h]
  exact ⟨h1, by rw [h1], by rw [h1]⟩

/-- Witness for `fingerprint_sanitized_collision`: `a<greement` and
`agreement` differ only in a denylist character, sanitize to the same
text, and share the fingerprint. -/
theorem fingerprint_sanitized_collision_witness :
    "a<greement".data ≠ "agreement".data ∧
    sanitize_input "a<greement".data = sanitize_input "agreement".data ∧
    contract_hash_raw id "a<greement".data = contract_hash_raw id "agreement".data :=
  ⟨by decide, by decide,
   (fingerprint_sanitized_collision (V := Unit) id id (fun _ => none)
     ⟨true, [], 3600, 1000⟩ 0 "a<greement".data "agreement".data [] []
     (by decide)).1⟩

/-! ### Lemmas about the rate limiter's per-client maps -/

/-- The post-prune content of one client's window: the stored timestamps
newer than the horizon. -/
def prunedWindow (m : TsMap) (c : List Char) (horizon : Int) : List Int :=
  ((lookupClient m c).getD []).filter (fun t => t > horizon)

lemma lookupClient_eq_none_of_not_mem {m : TsMap} {c : List Char}
    (h : c ∉ m.map Prod.fst) : lookupClient m c = none := by
  induction m with
  | nil => rfl
  | cons e rest ih =>
    simp only [List.map_cons, List.mem_cons, not_or] at h
    rw [lookupClient, if_neg (fun he => h.1 he.symm), ih h.2]

lemma mem_keys_pruneMap {h : Int} {m : TsMap} {c : List Char}
    (hc : c ∈ (pruneMap h m).map Prod.fst) : c ∈ m.map Prod.fst := by
  unfold pruneMap at hc
  obtain ⟨e, he, rfl⟩ := List.mem_map.mp hc
  obtain ⟨e0, he0, heq⟩ := List.mem_map.mp (List.mem_filter.mp he).1
  exact List.mem_map.mpr ⟨e0, he0, by rw [← heq]⟩

lemma pruneMap_cons (h : Int) (e : List Char × List Int) (rest : TsMap) :
    pruneMap h (e :: rest) =
      if e.2.filter (fun t => t > h) = [] then pruneMap h rest
      else (e.1, e.2.filter (fun t => t > h)) :: pruneMap h rest := by
  unfold pruneMap
  rw [List.map_cons, List.filter_cons]
  split
  · next hcond =>
    rw [if_neg]
    simpa using hcond
  · next hcond =>
    rw [if_pos]
    simpa using hcond

lemma lookupClient_pruneMap (h : Int) (m : TsMap) (c : List Char)
    (hnd : (m.map Prod.fst).Nodup) :
    (lookupClient (pruneMap h m) c).getD [] = prunedWindow m c h := by
  induction m with
  | nil => simp [pruneMap, lookupClient, prunedWindow]
  | cons e rest ih =>
    simp only [List.map_cons, List.nodup_cons] at hnd
    obtain ⟨hk, hnd'⟩ := hnd
    rw [pruneMap_cons]
    by_cases hec : e.1 = c
    · subst hec
      have hr : lookupClient rest e.1 = none :=
        lookupClient_eq_none_of_not_mem hk
      split
      · next hts =>
        have : lookupClient (pruneMap h rest) e.1 = none :=
          lookupClient_eq_none_of_not_mem (fun hmem => hk (mem_keys_pruneMap hmem))
        simp [this, prunedWindow, lookupClient, hts]
      · simp [prunedWindow, lookupClient]
    · have hpw : prunedWindow (e :: rest) c h = prunedWindow rest c h := by
        simp [prunedWindow, lookupClient, hec]
      rw [hpw]
      split
      · exact ih hnd'
      · rw [lookupClient, if_neg hec]
        exact ih hnd'

lemma lookupClient_append (m1 m2 : TsMap) (c : List Char) :
    lookupClient (m1 ++ m2) c =
      match lookupClient m1 c with
      | some ts => some ts
      | none => lookupClient m2 c := by
  induction m1 with
  | nil => simp [lookupClient]
  | cons e rest ih =>
    by_cases hec : e.1 = c
    · simp [lookupClient, hec]
    · simp only [List.cons_append, lookupClient, if_neg hec]
      exact ih

lemma lookupClient_ensure_self (m : TsMap) (c : List Char) :
    lookupClient (ensureClient m c) c = some ((lookupClient m c).getD []) := by
  unfold ensureClient
  cases hl : lookupClient m c with
  | some ts => simp [hl]
  | none =>
    rw [lookupClient_append, hl]
    simp [lookupClient]

lemma lookupClient_appendTs (m : TsMap) (c : List Char) (t : Int) :
    lookupClient (appendTs m c t) c =
      (lookupClient m c).map (fun l => l ++ [t]) := by
  induction m with
  | nil => rfl
  | cons e rest ih =>
    by_cases hec : e.1 = c
    · simp [appendTs, lookupClient, hec]
    · simp only [appendTs, List.map_cons, if_neg hec] at *
      rw [lookupClient, lookupClient, if_neg hec, if_neg hec]
      exact ih

/-- Full characterisation of one `is_allowed` call: the boolean answer is
exactly "both post-prune window counts are under their limits", and the
client's stored windows afterwards are the post-prune windows with the
current timestamp appended exactly when the request was admitted. -/
lemma is_allowed_char (s : RateLimiterState) (client : List Char) (now : Int)
    (hm : (s.minute_requests.map Prod.fst).Nodup)
    (hh : (s.hour_requests.map Prod.fst).Nodup) :
    ((is_allowed s client now).1 = true ↔
      ((prunedWindow s.minute_requests client (now - 60)).length <
          s.requests_per_minute ∧
        (prunedWindow s.hour_requests client (now - 3600)).length <
          s.requests_per_hour)) ∧
    (lookupClient (is_allowed s client now).2.minute_requests client).getD [] =
      prunedWindow s.minute_requests client (now - 60) ++
        (if (is_allowed s client now).1 then [now] else []) ∧
    (lookupClient (is_allowed s client now).2.hour_requests client).getD [] =
      prunedWindow s.hour_requests client (now - 3600) ++
        (if (is_allowed s client now).1 then [now] else []) := by
  have em : lookupClient
      (ensureClient (pruneMap (now - 60) s.minute_requests) client) client =
      some (prunedWindow s.minute_requests client (now - 60)) := by
    rw [lookupClient_ensure_self, lookupClient_pruneMap _ _ _ hm]
  have eh : lookupClient
      (ensureClient (pruneMap (now - 3600) s.hour_requests) client) client =
      some (prunedWindow s.hour_requests client (now - 3600)) := by
    rw [lookupClient_ensure_self, lookupClient_pruneMap _ _ _ hh]
  have ehp : (lookupClient (pruneMap (now - 3600) s.hour_requests) client).getD [] =
      prunedWindow s.hour_requests client (now - 3600) :=
    lookupClient_pruneMap _ _ _ hh
  have eam : lookupClient
      (appendTs (ensureClient (pruneMap (now - 60) s.minute_requests) client)
        client now) client =
      some (prunedWindow s.minute_requests client (now - 60) ++ [now]) := by
    rw [lookupClient_appendTs, em]; rfl
  have eah : lookupClient
      (appendTs (ensureClient (pruneMap (now - 3600) s.hour_requests) client)
        client now) client =
      some (prunedWindow s.hour_requests client (now - 3600) ++ [now]) := by
    rw [lookupClient_appendTs, eh]; rfl
  simp only [is_allowed, cleanup_old_entries, em, eh, Option.getD_some]
  by_cases h1 : (prunedWindow s.minute_requests client (now - 60)).length ≥
      s.requests_per_minute
  · rw [if_pos h1]
    refine ⟨by simp; omega, ?_, ?_⟩
    · simp [em]
    · simp [ehp]
  · rw [if_neg h1]
    by_cases h2 : (prunedWindow s.hour_requests client (now - 3600)).length ≥
        s.requests_per_hour
    · rw [if_pos h2]
      refine ⟨by simp; omega, ?_, ?_⟩
      · simp [em]
      · simp [eh]
    · rw [if_neg h2]
      refine ⟨by simp; omega, ?_, ?_⟩
      · simp [eam]
      · simp [eah]

/-- C1: with valid (duplicate-free) per-client maps, `is_allowed` admits a
request exactly when the post-prune minute count is under the per-minute
limit and the post-prune hour count is under the per-hour limit; on
admission the current timestamp is appended to both the minute and hour
sequences, and on rejection no timestamp is recorded in either — so the
(L+1)-th request inside a rolling 60-second window is rejected. -/
theorem rate_limiter_admission (s : RateLimiterState) (client : List Char)
    (now : Int)
    (hm : (s.minute_requests.map Prod.fst).Nodup)
    (hh : (s.hour_requests.map Prod.fst).Nodup) :
    ((is_allowed s client now).1 = true ↔
      ((prunedWindow s.minute_requests client (now - 60)).length <
          s.requests_per_minute ∧
        (prunedWindow s.hour_requests client (now - 3600)).length <
          s.requests_per_hour)) ∧
    (lookupClient (is_allowed s client now).2.minute_requests client).getD [] =
      prunedWindow s.minute_requests client (now - 60) ++
        (if (is_allowed s client now).1 then [now] else []) ∧
    (lookupClient (is_allowed s client now).2.hour_requests client).getD [] =
      prunedWindow s.hour_requests client (now - 3600) ++
        (if (is_allowed s client now).1 then [now] else []) :=
  is_allowed_char s client now hm hh

/-- Witness for `rate_limiter_admission`: a fresh limiter with limits 2/10
admits a first request from client `c` at time 100. -/
theorem rate_limiter_admission_witness :
    (is_allowed ⟨2, 10, [], []⟩ "c".data 100).1 = true :=
  (rate_limiter_admission ⟨2, 10, [], []⟩ "c".data 100 (by simp) (by simp)).1.mpr
    ⟨by decide, by decide⟩

/-- C9: an admitted request permanently consumes one unit of both
rate-limit windows: after admission the `/analyze` handler never touches
the limiter again, so whichever way the request ends — validation failure
(400), cache hit, pipeline failure (500) or success — the final limiter
state is exactly the post-admission state, with the admission timestamp
still recorded in both the minute and hour sequences. -/
theorem admitted_request_quota_consumed (rl : RateLimiterState)
    (client : List Char) (now : Int) (input : Option AnalyzeInput)
    (cachedValue : Option AnalysisData) (chunks : List Chunk)
    (hm : (rl.minute_requests.map Prod.fst).Nodup)
    (hh : (rl.hour_requests.map Prod.fst).Nodup)
    (hadm : (is_allowed rl client now).1 = true) :
    (analyze_endpoint rl client now input cachedValue chunks).2 =
      (is_allowed rl client now).2 ∧
    (lookupClient
        (analyze_endpoint rl client now input cachedValue chunks).2.minute_requests
        client).getD [] =
      prunedWindow rl.minute_requests client (now - 60) ++ [now] ∧
    (lookupClient
        (analyze_endpoint rl client now input cachedValue chunks).2.hour_requests
        client).getD [] =
      prunedWindow rl.hour_requests client (now - 3600) ++ [now] := by
  obtain ⟨-, hmin, hhr⟩ := is_allowed_char rl client now hm hh
  have hstate : (analyze_endpoint rl client now input cachedValue chunks).2 =
      (is_allowed rl client now).2 := by
    unfold analyze_endpoint
    rcases hia : is_allowed rl client now with ⟨b, rl'⟩
    rw [hia] at hadm
    simp only at hadm
    subst hadm
    simp only [Bool.not_true, Bool.false_eq_true, if_false]
    cases preModelGate input with
    | error e => rfl
    | ok t =>
      cases cachedValue with
      | some v => rfl
      | none =>
        cases scanChunks chunks with
        | error m => rfl
        | ok r => rfl
  rw [hadm] at hmin hhr
  simp only [if_true] at hmin hhr
  exact ⟨hstate, by rw [hstate, hmin], by rw [hstate, hhr]⟩

/-- Witness for `admitted_request_quota_consumed`: a fresh limiter, an
admitted request whose raw text later fails no gate, at time 100. -/
theorem admitted_request_quota_consumed_witness :
    (is_allowed ⟨2, 10, [], []⟩ "c".data 100).1 = true ∧
    (analyze_endpoint ⟨2, 10, [], []⟩ "c".data 100
        (some (.rawText "tiny".data)) none []).2 =
      (is_allowed ⟨2, 10, [], []⟩ "c".data 100).2 :=
  ⟨by decide,
   (admitted_request_quota_consumed ⟨2, 10, [], []⟩ "c".data 100
     (some (.rawText "tiny".data)) none [] (by simp) (by simp) (by decide)).1⟩

/-! ### Lemmas about the streaming relay -/

lemma progressChunks_not_final (acc : List Char) (frags : List (List Char)) :
    ∀ c ∈ progressChunks acc frags, c.is_final = false := by
  induction frags generalizing acc with
  | nil => simp [progressChunks]
  | cons f rest ih =>
    intro c hc
    rw [progressChunks] at hc
    rcases List.mem_cons.mp hc with rfl | hc
    · rfl
    · exact ih _ c hc

lemma generate_stream_shape (t : Int) (pre : List Chunk) (fin : Chunk)
    (r : Option (List Char)) (hpre : ∀ c ∈ pre, c.is_final = false)
    (hfin : fin.is_final = true) :
    generate_stream t (pre ++ [fin]) r = pre ++ [fin] := by
  induction pre with
  | nil => simp [generate_stream, hfin]
  | cons c rest ih =>
    have hc := hpre c (by simp)
    rw [List.cons_append, generate_stream, hc]
    simp only [Bool.false_eq_true, if_false, List.cons_append, List.cons.injEq,
      true_and]
    exact ih fun d hd => hpre d (by simp [hd])

lemma service_shape (parse : List Char → Option AnalysisPayload)
    (frags : List (List Char)) (exc : Option (List Char)) :
    ∃ fin, service_analyze_contract parse frags exc =
      progressChunks [] frags ++ [fin] ∧ fin.is_final = true := by
  unfold service_analyze_contract stream_analysis
  cases exc with
  | some msg => exact ⟨_, rfl, rfl⟩
  | none =>
    cases process_analysis_response parse (frags.foldl (· ++ ·) []) with
    | ok r => exact ⟨_, rfl, rfl⟩
    | error e => exact ⟨_, rfl, rfl⟩

/-- C6: the event sequence the stream endpoint delivers for a pipeline
run contains exactly one final event, that event is last (nothing is
delivered after it), and when the upstream generator raises before
producing any event the relay delivers exactly one synthesized final
error event carrying the message. -/
theorem stream_single_final_event (parse : List Char → Option AnalysisPayload)
    (frags : List (List Char)) (exc : Option (List Char)) (t : Int) :
    (∃ pre fin,
      generate_stream t (service_analyze_contract parse frags exc) none =
        pre ++ [fin] ∧
      fin.is_final = true ∧
      (∀ c ∈ pre, c.is_final = false) ∧
      (generate_stream t (service_analyze_contract parse frags exc) none).countP
        (fun c => c.is_final) = 1) ∧
    (∀ msg, generate_stream t [] (some msg) =
      [{ type := "error".data, payload := .failure msg, timestamp := t,
         is_final := true }]) := by
  obtain ⟨fin, hshape, hfin⟩ := service_shape parse frags exc
  have hpre := progressChunks_not_final [] frags
  have hg : generate_stream t (service_analyze_contract parse frags exc) none =
      progressChunks [] frags ++ [fin] := by
    rw [hshape]
    exact generate_stream_shape t _ fin none hpre hfin
  refine ⟨⟨progressChunks [] frags, fin, hg, hfin, hpre, ?_⟩, fun msg => rfl⟩
  rw [hg, List.countP_append]
  have h0 : (progressChunks [] frags).countP (fun c => c.is_final) = 0 :=
    List.countP_eq_zero.mpr (fun c hc => by simp [hpre c hc])
  rw [h0]
  simp [List.countP_cons, hfin]

/-- Witness for `stream_single_final_event`: the raise-before-any-event
branch at a concrete message. -/
theorem stream_single_final_event_witness :
    generate_stream 0 [] (some "boom".data) =
      [{ type := "error".data, payload := .failure "boom".data, timestamp := 0,
         is_final := true }] :=
  (stream_single_final_event (fun _ => none) [] none 0).2 "boom".data

/-! ### Lemmas about the batch loop -/

lemma batchRun_spec (chunksOf : Nat → List Chunk)
    (store : Nat → Except (List Char) (List Char)) (j : Nat)
    (l : List ContractData) :
    (batchRun chunksOf store j l).2.2.length = l.length ∧
    (batchRun chunksOf store j l).1 + (batchRun chunksOf store j l).2.1 =
      l.length ∧
    ∀ i : Nat, (batchRun chunksOf store j l).2.2[i]? =
      (l[i]?).map (fun cd => (processItem chunksOf store (j + i) cd).1) := by
  induction l generalizing j with
  | nil => simp [batchRun]
  | cons cd rest ih =>
    obtain ⟨ih1, ih2, ih3⟩ := ih (j + 1)
    rcases h1 : processItem chunksOf store j cd with ⟨entry, ok⟩
    rcases h2 : batchRun chunksOf store (j + 1) rest with ⟨c, f, rs⟩
    rw [h2] at ih1 ih2 ih3
    simp only at ih1 ih2 ih3
    simp only [batchRun, h1, h2]
    refine ⟨by simpa using ih1, by cases ok <;> simp <;> omega, ?_⟩
    intro i
    cases i with
    | zero => simp [h1]
    | succ n =>
      simp only [List.getElem?_cons_succ, ih3 n]
      rw [show j + (n + 1) = j + 1 + n by omega]

/-- C7: a single item's failure never aborts the batch: the report covers
every submitted item in order, `completed + failed` sums to the batch
size, each per-item entry carries its contract id, an entry is
`completed` exactly when the item's stream produced an
`analysis_complete` event and persistence succeeded, and every other
entry is recorded as `failed` with an error message. -/
theorem batch_failure_isolation (chunksOf : Nat → List Chunk)
    (store : Nat → Except (List Char) (List Char))
    (contracts_data : List ContractData) :
    (batch_analyze_contracts chunksOf store contracts_data).total =
      contracts_data.length ∧
    (batch_analyze_contracts chunksOf store contracts_data).results.length =
      contracts_data.length ∧
    (batch_analyze_contracts chunksOf store contracts_data).completed +
        (batch_analyze_contracts chunksOf store contracts_data).failed =
      contracts_data.length ∧
    ∀ i cd, contracts_data[i]? = some cd →
      ∃ entry,
        (batch_analyze_contracts chunksOf store contracts_data).results[i]? =
          some entry ∧
        entry.contract_id = cd.id ∧
        (entry.status = "completed".data ↔
          ((firstComplete (chunksOf i)).isSome = true ∧
            ∃ aid, store i = .ok aid)) ∧
        (entry.status = "completed".data ∨
          (entry.status = "failed".data ∧ entry.error.isSome = true)) := by
  obtain ⟨h1, h2, h3⟩ := batchRun_spec chunksOf store 0 contracts_data
  refine ⟨rfl, ?_, ?_, ?_⟩
  · simpa [batch_analyze_contracts] using h1
  · simpa [batch_analyze_contracts] using h2
  · intro i cd hcd
    refine ⟨(processItem chunksOf store i cd).1, ?_, ?_⟩
    · have := h3 i
      rw [hcd] at this
      simpa [batch_analyze_contracts] using this
    · unfold processItem
      cases hfc : firstComplete (chunksOf i) with
      | none =>
        dsimp only
        refine ⟨rfl, ?_, .inr ⟨rfl, rfl⟩⟩
        constructor
        · intro h
          exact absurd h (by decide)
        · rintro ⟨hs, -⟩
          simp at hs
      | some r =>
        cases hst : store i with
        | ok aid =>
          dsimp only
          exact ⟨rfl, ⟨fun _ => ⟨rfl, aid, rfl⟩, fun _ => rfl⟩, .inl rfl⟩
        | error e =>
          dsimp only
          refine ⟨rfl, ?_, .inr ⟨rfl, rfl⟩⟩
          constructor
          · intro h
            exact absurd h (by decide)
          · rintro ⟨-, aid, haid⟩
            exact Except.noConfusion haid

/-- Stub model client for the batch scenario: item 2 (index 1) fails, the
other items produce a final `analysis_complete` event. -/
def batchScenarioChunks : Nat → List Chunk := fun i =>
  if i = 1 then [errorChunk "model failure".data]
  else [completeChunk (degradedResult [])]

def batchScenarioStore : Nat → Except (List Char) (List Char) :=
  fun _ => .ok "id1".data

def batchScenarioContracts : List ContractData :=
  [{ id := some "c1".data, text := [], industry := none, analysis_types := [] },
   { id := some "c2".data, text := [], industry := none, analysis_types := [] },
   { id := some "c3".data, text := [], industry := none, analysis_types := [] }]

/-- Witness for `batch_failure_isolation`: the 3-item scenario with only
item 2 failing reports completed=2, failed=1, and still carries an entry
for the failing item. -/
theorem batch_failure_isolation_witness :
    (batch_analyze_contracts batchScenarioChunks batchScenarioStore
        batchScenarioContracts).completed = 2 ∧
    (batch_analyze_contracts batchScenarioChunks batchScenarioStore
        batchScenarioContracts).failed = 1 ∧
    (batch_analyze_contracts batchScenarioChunks batchScenarioStore
        batchScenarioContracts).completed +
      (batch_analyze_contracts batchScenarioChunks batchScenarioStore
        batchScenarioContracts).failed = 3 ∧
    ∃ entry,
      (batch_analyze_contracts batchScenarioChunks batchScenarioStore
          batchScenarioContracts).results[1]? = some entry ∧
      entry.contract_id = some "c2".data := by
  have h := batch_failure_isolation batchScenarioChunks batchScenarioStore
    batchScenarioContracts
  obtain ⟨entry, hent, hid, -, -⟩ := h.2.2.2 1
    { id := some "c2".data, text := [], industry := none, analysis_types := [] } rfl
  exact ⟨rfl, rfl, h.2.2.1, entry, hent, hid⟩

/-! ### Lemmas about the cache -/

lemma find?_live_redisDel_eq_none (st : RedisStore) (t' : Int)
    (k : List Char) :
    (redisDel st k).find? (fun e => e.key = k ∧ entryLive t' e) = none := by
  rw [List.find?_eq_none]
  intro e he hpe
  have h1 := (List.mem_filter.mp he).2
  have h2 : e.key = k := by
    have := of_decide_eq_true hpe
    exact this.1
  have h3 : e.key ≠ k := by simpa using h1
  exact h3 h2

lemma redisGet_setex (st : RedisStore) (now t' : Int) (k v : List Char)
    (ttl : Int) :
    redisGet (redisSetex st now k v ttl) t' k =
      if t' < now + ttl then some v else none := by
  unfold redisGet redisSetex
  rw [List.find?_append, find?_live_redisDel_eq_none st t' k]
  simp only [Option.none_or]
  by_cases h : t' < now + ttl
  · rw [if_pos h]
    simp [List.find?, entryLive, h]
  · rw [if_neg h]
    simp [List.find?, entryLive, h]

lemma cache_get_of_connected {V : Type} (hash : List Char → List Char)
    (decode : List Char → Option V) (s' : CacheState) (now : Int)
    (key : List Char) (hc : s'.connected = true) :
    cache_get hash decode s' now key =
      match redisGet s'.store now (generate_key hash key) with
      | some v => if v ≠ [] then decode v else none
      | none => none := by
  unfold cache_get
  rw [hc]
  rfl

lemma cache_set_eq_of_connected {V : Type} (hash : List Char → List Char)
    (encode : V → List Char) (s : CacheState) (now : Int) (k : List Char)
    (v : V) (ttl : Int) (hconn : s.connected = true) (httl : 0 < ttl) :
    cache_set hash encode s now k v (some ttl) =
      (true,
       { (if check_size_limit s now then
            { s with store := evict_oldest s.store now }
          else s) with
         store := redisSetex
           (if check_size_limit s now then
              { s with store := evict_oldest s.store now }
            else s).store now (generate_key hash k) (encode v) ttl }) := by
  unfold cache_set
  rw [hconn]
  simp only [Bool.not_true, Bool.false_eq_true, if_false,
    if_neg (by omega : ¬ ttl = 0)]
  rw [if_neg (by omega : ¬ ttl ≤ 0)]

/-- C4: with the backing store available, `set(k, v, ttl)` with a positive
TTL succeeds, an immediate `get(k)` returns `v` (given that the
serialisation round-trips, as `json.dumps`/`json.loads` do on cached
payloads, and serialises to a non-empty string, as `json.dumps` does),
and any `get(k)` at or after `ttl` elapsing returns absent. -/
theorem cache_set_then_get {V : Type} (hash : List Char → List Char)
    (encode : V → List Char) (decode : List Char → Option V)
    (s : CacheState) (now : Int) (k : List Char) (v : V) (ttl : Int)
    (hconn : s.connected = true) (httl : 0 < ttl)
    (henc : encode v ≠ []) (hdec : decode (encode v) = some v) :
    (cache_set hash encode s now k v (some ttl)).1 = true ∧
    cache_get hash decode (cache_set hash encode s now k v (some ttl)).2 now k =
      some v ∧
    ∀ t', now + ttl ≤ t' →
      cache_get hash decode (cache_set hash encode s now k v (some ttl)).2 t' k =
        none := by
  rw [cache_set_eq_of_connected hash encode s now k v ttl hconn httl]
  have hs1c : (if check_size_limit s now then
      { s with store := evict_oldest s.store now } else s).connected = true := by
    split <;> exact hconn
  refine ⟨rfl, ?_, ?_⟩
  · rw [cache_get_of_connected _ _ _ _ _ (by exact hs1c)]
    dsimp only
    rw [redisGet_setex, if_pos (by omega : now < now + ttl)]
    simp only [ne_eq, henc, not_false_eq_true, if_pos]
    exact hdec
  · intro t' ht'
    rw [cache_get_of_connected _ _ _ _ _ (by exact hs1c)]
    dsimp only
    rw [redisGet_setex, if_neg (by omega : ¬ t' < now + ttl)]

/-- Witness for `cache_set_then_get`: identity serialisation of the
string `v` under key `k` in a fresh connected cache. -/
theorem cache_set_then_get_witness :
    ("v".data ≠ ([] : List Char)) ∧
    cache_get id some
        (cache_set id id ⟨true, [], 3600, 1000⟩ 0 "k".data "v".data (some 60)).2
        0 "k".data = some "v".data :=
  ⟨by decide,
   (cache_set_then_get id id some ⟨true, [], 3600, 1000⟩ 0 "k".data "v".data 60
     rfl (by omega) (by decide) rfl).2.1⟩

/-- C5: when the live `clyrdia:*` entry count is at or over the
configured maximum, the next `set` evicts before writing: among the
`n` live entries that carry a TTL (no-TTL entries are excluded), it
deletes `max(1, n / 10)` entries (capped by `n`) whose remaining TTLs are
all at most those of every surviving candidate, and the entry being
written is present in the store afterwards. -/
theorem cache_eviction_policy {V : Type} (hash : List Char → List Char)
    (encode : V → List Char) (s : CacheState) (now : Int) (k : List Char)
    (v : V) (ttl : Int) (hconn : s.connected = true) (httl : 0 < ttl)
    (hsize : check_size_limit s now = true) :
    ∃ evicted kept,
      List.Perm (keyTTLs s.store now) (evicted ++ kept) ∧
      evicted.length =
        min (max 1 ((keyTTLs s.store now).length / 10))
          (keyTTLs s.store now).length ∧
      (∀ a ∈ evicted, ∀ b ∈ kept, a.2 ≤ b.2) ∧
      (∀ a ∈ evicted, 0 < a.2) ∧
      (cache_set hash encode s now k v (some ttl)).2.store =
        redisSetex (evicted.foldl (fun st e => redisDel st e.1) s.store) now
          (generate_key hash k) (encode v) ttl ∧
      redisGet (cache_set hash encode s now k v (some ttl)).2.store now
          (generate_key hash k) = some (encode v) := by
  have htrans : ∀ (a b c : List Char × Int), decide (a.2 ≤ b.2) = true →
      decide (b.2 ≤ c.2) = true → decide (a.2 ≤ c.2) = true := by
    intro a b c hab hbc
    simp only [decide_eq_true_eq] at *
    omega
  have htotal : ∀ (a b : List Char × Int),
      (decide (a.2 ≤ b.2) || decide (b.2 ≤ a.2)) = true := by
    intro a b
    simp only [Bool.or_eq_true, decide_eq_true_eq]
    omega
  refine ⟨((keyTTLs s.store now).mergeSort (fun a b => a.2 ≤ b.2)).take
      (max 1 ((keyTTLs s.store now).length / 10)),
    ((keyTTLs s.store now).mergeSort (fun a b => a.2 ≤ b.2)).drop
      (max 1 ((keyTTLs s.store now).length / 10)), ?_, ?_, ?_, ?_, ?_, ?_⟩
  · rw [List.take_append_drop]
    exact (List.mergeSort_perm (keyTTLs s.store now) _).symm
  · rw [List.length_take, List.length_mergeSort]
  · have hpw := List.sorted_mergeSort htrans htotal (keyTTLs s.store now)
    rw [← List.take_append_drop (max 1 ((keyTTLs s.store now).length / 10))
      ((keyTTLs s.store now).mergeSort (fun a b => a.2 ≤ b.2))] at hpw
    have h3 := (List.pairwise_append.mp hpw).2.2
    intro a ha b hb
    have := h3 a ha b hb
    simpa using this
  · intro a ha
    have ham : a ∈ keyTTLs s.store now := by
      have hsub := (List.take_sublist _ _).subset ha
      rwa [List.mem_mergeSort] at hsub
    simp only [keyTTLs, List.mem_filterMap] at ham
    obtain ⟨k', hk', heq⟩ := ham
    split at heq
    · next hpos =>
      cases heq
      simpa using hpos
    · exact absurd heq (by simp)
  · rw [cache_set_eq_of_connected hash encode s now k v ttl hconn httl]
    dsimp only
    rw [if_pos hsize]
    dsimp only
    congr 1
    simp only [evict_oldest]
    split
    · next hkeys =>
      have hk0 : keyTTLs s.store now = [] := by
        unfold keyTTLs
        rw [hkeys]
        rfl
      rw [hk0]
      simp
    · rfl
  · rw [cache_set_eq_of_connected hash encode s now k v ttl hconn httl]
    dsimp only
    rw [redisGet_setex, if_pos (by omega : now < now + ttl)]

/-- Witness for `cache_eviction_policy`: a one-entry cache at its
configured maximum of 1, written with a fresh key. -/
theorem cache_eviction_policy_witness :
    check_size_limit
        ⟨true, [⟨"clyrdia:a".data, "x".data, some 50⟩], 3600, 1⟩ 0 = true ∧
    redisGet (cache_set (V := List Char) id id
        ⟨true, [⟨"clyrdia:a".data, "x".data, some 50⟩], 3600, 1⟩ 0 "k".data
        "v".data (some 7)).2.store 0 (generate_key id "k".data) =
      some "v".data := by
  refine ⟨by decide, ?_⟩
  obtain ⟨-, -, -, -, -, -, -, hget⟩ := cache_eviction_policy id id
    ⟨true, [⟨"clyrdia:a".data, "x".data, some 50⟩], 3600, 1⟩ 0 "k".data
    "v".data 7 rfl (by omega) (by decide)
  exact hget
